import Mathlib

/-!
Verification of `src/sanitize-tools.ts`: a tool-adaptation layer that
(a) recursively strips a fixed denylist of JSON Schema keywords from tool
input schemas and (b) wraps tool execution functions so that content-block
results are flattened into plain strings.

JavaScript values flowing through the module are modelled by the inductive
type `JValue` (null, booleans, integers for numbers, strings, arrays,
string-keyed objects as ordered association lists, mirroring
`Object.entries` insertion order).
-/

namespace SanitizeTools

/-- A JSON-like runtime value: the shape of schemas, tool arguments and
tool results handled by the module. Objects keep their fields in insertion
order, as `Object.entries` does. -/
inductive JValue where
  | null : JValue
  | bool : Bool → JValue
  | num : Int → JValue
  | str : String → JValue
  | arr : List JValue → JValue
  | obj : List (String × JValue) → JValue
deriving Repr

/-- The fixed denylist `STRIP_KEYS` of JSON Schema keywords removed by the
sanitizer (source lines 9-20). -/
def STRIP_KEYS : List String :=
  ["minLength", "maxLength", "minItems", "maxItems",
   "exclusiveMinimum", "exclusiveMaximum", "pattern",
   "format", "default", "$schema"]

mutual

/-- `sanitizeSchema` (source lines 22-52), taking the entries of the input
object in order: denylisted keys are dropped; a value that is a non-null,
non-array object is sanitized recursively; an array value has exactly its
object-shaped items sanitized, other items (including nested arrays)
passing through unchanged; every other value is copied as is. -/
def sanitizeSchema : List (String × JValue) → List (String × JValue)
  | [] => []
  | (k, v) :: rest =>
    if STRIP_KEYS.contains k then sanitizeSchema rest
    else (k, sanitizeEntryValue v) :: sanitizeSchema rest

/-- The per-value branch of `sanitizeSchema`'s loop body (source lines
30-48): recurse into objects, map over arrays, pass primitives through. -/
def sanitizeEntryValue : JValue → JValue
  | .obj fields => .obj (sanitizeSchema fields)
  | .arr items => .arr (sanitizeItems items)
  | v => v

/-- The array branch of `sanitizeSchema` (source lines 38-45): each item
that is a non-null, non-array object is sanitized; any other item — a
primitive or a nested array — is kept unchanged. -/
def sanitizeItems : List JValue → List JValue
  | [] => []
  | item :: rest =>
    (match item with
     | .obj fields => JValue.obj (sanitizeSchema fields)
     | other => other) :: sanitizeItems rest

end

mutual

/-- `true` iff key `k` occurs as an object key anywhere in the fields,
at any nesting depth (through objects and arrays alike). -/
def hasKeyFields (k : String) : List (String × JValue) → Bool
  | [] => false
  | (k', v) :: rest => k' == k || hasKeyVal k v || hasKeyFields k rest

/-- `true` iff key `k` occurs as an object key anywhere in the value. -/
def hasKeyVal (k : String) : JValue → Bool
  | .obj fields => hasKeyFields k fields
  | .arr items => hasKeyItems k items
  | _ => false

/-- `true` iff key `k` occurs as an object key anywhere in the items. -/
def hasKeyItems (k : String) : List JValue → Bool
  | [] => false
  | item :: rest => hasKeyVal k item || hasKeyItems k rest

end

mutual

/-- `true` iff key `k` occurs at a position the sanitizer's recursion
reaches: as a key of the object itself, inside an object value, or inside
an object-shaped element of an array value. Positions inside an array
element that is itself an array are not reached. -/
def reachKeyFields (k : String) : List (String × JValue) → Bool
  | [] => false
  | (k', v) :: rest => k' == k || reachKeyVal k v || reachKeyFields k rest

/-- Reachable-occurrence test for a field value. -/
def reachKeyVal (k : String) : JValue → Bool
  | .obj fields => reachKeyFields k fields
  | .arr items => reachKeyItems k items
  | _ => false

/-- Reachable-occurrence test for array items: only object-shaped items
are looked into, as in the sanitizer's array branch. -/
def reachKeyItems (k : String) : List JValue → Bool
  | [] => false
  | item :: rest =>
    (match item with
     | JValue.obj fields => reachKeyFields k fields
     | _ => false) || reachKeyItems k rest

end

/-- Property access `fields[k]` on a JavaScript object, as first-match
lookup over the ordered entries (object keys are unique at runtime, so
first match is the match). -/
def getField : List (String × JValue) → String → Option JValue
  | [], _ => none
  | (k', v) :: rest, k => if k' == k then some v else getField rest k

/-- The per-part condition of `extractTexts` (source lines 66-74): the
part is a non-null object whose `type` field is the string `"text"` and
whose `text` field is a string; if so, that string is the recognized text. -/
def blockText : JValue → Option String
  | .obj fields =>
    match getField fields "type", getField fields "text" with
    | some (.str t), some (.str s) => if t == "text" then some s else none
    | _, _ => none
  | _ => none

/-- `extractTexts` (source lines 61-81): walk the parts in order, pushing
the `text` of each recognized text content block. -/
def extractTexts : List JValue → List String
  | [] => []
  | part :: rest =>
    match blockText part with
    | some s => s :: extractTexts rest
    | none => extractTexts rest

/-- A Content Block per the data model: a tree whose `type` field equals
`"text"` and whose `text` field holds a string. -/
def isContentBlock (v : JValue) : Bool :=
  match v with
  | .obj fields =>
    (match getField fields "type" with
     | some (.str t) => t == "text"
     | _ => false) &&
    (match getField fields "text" with
     | some (.str _) => true
     | _ => false)
  | _ => false

/-- The `text` field of a Content Block (empty string on unrecognized
shapes, which `isContentBlock` rules out). -/
def contentText (v : JValue) : String :=
  match v with
  | .obj fields =>
    match getField fields "text" with
    | some (.str s) => s
    | _ => ""
  | _ => ""

/-- One escaped character of a JSON string literal, as
`JSON.stringify` renders it. -/
def escapeChar (c : Char) : String :=
  if c = '"' then "\\\""
  else if c = '\\' then "\\\\"
  else if c = '\n' then "\\n"
  else if c = '\t' then "\\t"
  else if c = '\r' then "\\r"
  else if c = '\x08' then "\\b"
  else if c = '\x0c' then "\\f"
  else if c.toNat < 32 then
    "\\u00" ++ String.mk [(Nat.digitChar (c.toNat / 16)), (Nat.digitChar (c.toNat % 16))]
  else String.mk [c]

/-- A JSON string literal with quotes and escapes, as `JSON.stringify`
renders strings. -/
def escapeString (s : String) : String :=
  "\"" ++ String.join (s.toList.map escapeChar) ++ "\""

mutual

/-- `JSON.stringify` on the modelled value domain: the structural text
encoding used by the flattener's fallback (source line 107). -/
def jsonStringify : JValue → String
  | .null => "null"
  | .bool b => if b then "true" else "false"
  | .num n => toString n
  | .str s => escapeString s
  | .arr items => "[" ++ String.intercalate "," (stringifyItems items) ++ "]"
  | .obj fields => "\x7b" ++ String.intercalate "," (stringifyFields fields) ++ "\x7d"

/-- Rendered items of a JSON array. -/
def stringifyItems : List JValue → List String
  | [] => []
  | item :: rest => jsonStringify item :: stringifyItems rest

/-- Rendered `"key":value` members of a JSON object. -/
def stringifyFields : List (String × JValue) → List String
  | [] => []
  | (k, v) :: rest => (escapeString k ++ ":" ++ jsonStringify v) :: stringifyFields rest

end

/-- `flattenContent` (source lines 83-108): strings pass through; an
object whose `content` field is an array with at least one recognized
text block yields the texts joined by newlines; a bare array likewise;
everything else falls back to the structural JSON encoding. -/
def flattenContent (result : JValue) : String :=
  match result with
  | .str s => s
  | .obj fields =>
    match getField fields "content" with
    | some (.arr parts) =>
      let texts := extractTexts parts
      if texts.length > 0 then String.intercalate "\n" texts
      else jsonStringify (.obj fields)
    | _ => jsonStringify (.obj fields)
  | .arr parts =>
    let texts := extractTexts parts
    if texts.length > 0 then String.intercalate "\n" texts
    else jsonStringify (.arr parts)
  | other => jsonStringify other

/-- Modelled from the spec: the external Schema Canonicalizer and Schema
Constructor collaborators (`asSchema` / `jsonSchema` of the host SDK, not
part of this repository). A schema descriptor is identified with what the
canonicalizer resolves it to: `resolvedJson` is the `jsonSchema` value of
`asSchema` applied to the descriptor, `none` standing for an absent
(undefined) canonical form. -/
structure SchemaDesc where
  resolvedJson : Option JValue
deriving Repr

/-- Modelled from the spec: the external Schema Constructor, building a
descriptor whose canonical form is exactly the given tree. -/
def jsonSchema (v : JValue) : SchemaDesc := ⟨some v⟩

/-- A tool record (`ToolSet[string]`): an input-schema descriptor, an
optional asynchronous execution function (arguments to a result that
either resolves to a value or rejects with an error value, modelled by
`Except`), an optional result-rendering hook `toModelOutput`, and the
remaining fields of the record, untouched by this module, collapsed into
`description` and `extra`. -/
structure Tool where
  description : String
  inputSchema : SchemaDesc
  execute : Option (JValue → Except JValue JValue)
  toModelOutput : Option (JValue → JValue)
  extra : JValue

/-- The truthy-object guard of `sanitizeTools` (source line 146): `raw`
survives `!raw || typeof raw !== "object"` exactly when it is a non-null
object, arrays included. -/
def isObjectLike : JValue → Bool
  | .obj _ => true
  | .arr _ => true
  | _ => false

/-- `Object.entries` of a value cast to `Record<string, unknown>`, as the
call `sanitizeSchema(raw as Record<string, unknown>)` performs on the
guarded `raw`: an object gives its fields, an array its index-keyed
items. -/
def entriesOf : JValue → List (String × JValue)
  | .obj fields => fields
  | .arr items => (items.enum).map (fun p => (toString p.1, p.2))
  | _ => []

/-- `wrapExecute` (source lines 114-132): a tool without an execution
function is returned unchanged; otherwise a copy is returned whose
`toModelOutput` is absent and whose execution function awaits the
original on the same arguments and resolves to `flattenContent` of its
result, rejections passing through untouched. -/
def wrapExecute (tool : Tool) : Tool :=
  match tool.execute with
  | none => tool
  | some original =>
    { tool with
      toModelOutput := none
      execute := some (fun args =>
        match original args with
        | .ok result => .ok (.str (flattenContent result))
        | .error e => .error e) }

/-- The loop body of `sanitizeTools` (source lines 144-158) for one tool:
resolve the schema; if the canonical form is falsy or not of object type,
wrap the tool as is; otherwise sanitize the canonical form's entries and
wrap the tool with the rebuilt schema descriptor. -/
def adaptTool (tool : Tool) : Tool :=
  match tool.inputSchema.resolvedJson with
  | none => wrapExecute tool
  | some raw =>
    if isObjectLike raw then
      wrapExecute { tool with
        inputSchema := jsonSchema (.obj (sanitizeSchema (entriesOf raw))) }
    else wrapExecute tool

/-- `sanitizeTools` (source lines 140-162): each named tool of the
collection is adapted under its own name. -/
def sanitizeTools (tools : List (String × Tool)) : List (String × Tool) :=
  tools.map (fun entry => (entry.1, adaptTool entry.2))

/-- The guard condition under which `sanitizeTools` leaves a tool's
schema alone: the canonical form is absent or fails the truthy-object
test. -/
def schemaSkipped : Option JValue → Bool
  | none => true
  | some raw => !(isObjectLike raw)

/-! ### Concrete sample data used by witnesses and counterexamples -/

/-- A schema whose denylisted key sits inside an array nested directly in
an array: a position the sanitizer's recursion does not reach. -/
def nestedArraySchema : List (String × JValue) :=
  [("a", .arr [.arr [.obj [("minLength", .num 1)]]])]

/-- A denylist-free schema tree. -/
def cleanSchema : List (String × JValue) :=
  [("type", .str "object"),
   ("properties", .obj [("name", .obj [("type", .str "string")])]),
   ("required", .arr [.str "name"])]

/-- A tool whose execution returns one MCP-style text content block. -/
def mcpTextTool : Tool :=
  { description := "sample"
    inputSchema := ⟨none⟩
    execute := some (fun _ =>
      Except.ok (.arr [.obj [("type", .str "text"), ("text", .str "result")]]))
    toModelOutput := none
    extra := .null }

/-- A tool whose canonical schema is a tree carrying a denylisted key. -/
def minLengthSchemaTool : Tool :=
  { description := "strlen"
    inputSchema := ⟨some (.obj [("type", .str "string"), ("minLength", .num 3)])⟩
    execute := none
    toModelOutput := none
    extra := .null }

/-- A tool with a rendering hook but no execution function. -/
def hookOnlyTool : Tool :=
  { description := "hook-only"
    inputSchema := ⟨none⟩
    execute := none
    toModelOutput := some (fun v => v)
    extra := .null }

/-- A tool with both an execution function and a rendering hook. -/
def hookedExecTool : Tool :=
  { description := "hooked"
    inputSchema := ⟨none⟩
    execute := some (fun _ => Except.ok (.str "ok"))
    toModelOutput := some (fun v => v)
    extra := .null }

/-- A tool whose canonical schema is an array, not a tree. -/
def arraySchemaTool : Tool :=
  { description := "array-schema"
    inputSchema := ⟨some (.arr [.str "x"])⟩
    execute := none
    toModelOutput := none
    extra := .null }

/-- A second tool with an array canonical schema and no execution
function. -/
def numArraySchemaTool : Tool :=
  { description := "num-array-schema"
    inputSchema := ⟨some (.arr [.num 7])⟩
    execute := none
    toModelOutput := none
    extra := .null }

/-- A tool whose canonical schema is a primitive. -/
def primitiveSchemaTool : Tool :=
  { description := "primitive-schema"
    inputSchema := ⟨some (.bool true)⟩
    execute := some (fun _ => Except.ok (.str "ok"))
    toModelOutput := none
    extra := .null }

/-- A tool whose execution always rejects. -/
def failingTool : Tool :=
  { description := "failing"
    inputSchema := ⟨none⟩
    execute := some (fun _ => Except.error (.str "boom"))
    toModelOutput := none
    extra := .null }

/-! ### Helper lemmas -/

mutual

/-- Denylisted keys do not survive sanitization at any position the
sanitizer reaches. -/
theorem reachKey_sanitizeSchema (k : String) (hk : k ∈ STRIP_KEYS) :
    ∀ fields, reachKeyFields k (sanitizeSchema fields) = false
  | [] => by simp [sanitizeSchema, reachKeyFields]
  | (k', v) :: rest => by
    by_cases h : k' ∈ STRIP_KEYS
    · simpa [sanitizeSchema, h] using reachKey_sanitizeSchema k hk rest
    · have hne : (k' == k) = false :=
        beq_eq_false_iff_ne.mpr (fun he => h (he ▸ hk))
      simp [sanitizeSchema, h, reachKeyFields, hne,
        reachKey_sanitizeEntryValue k hk v, reachKey_sanitizeSchema k hk rest]

/-- Value-level form of `reachKey_sanitizeSchema`. -/
theorem reachKey_sanitizeEntryValue (k : String) (hk : k ∈ STRIP_KEYS) :
    ∀ v, reachKeyVal k (sanitizeEntryValue v) = false
  | .obj fields => by
    simpa [sanitizeEntryValue, reachKeyVal] using reachKey_sanitizeSchema k hk fields
  | .arr items => by
    simpa [sanitizeEntryValue, reachKeyVal] using reachKey_sanitizeItems k hk items
  | .null => by simp [sanitizeEntryValue, reachKeyVal]
  | .bool b => by simp [sanitizeEntryValue, reachKeyVal]
  | .num n => by simp [sanitizeEntryValue, reachKeyVal]
  | .str s => by simp [sanitizeEntryValue, reachKeyVal]

/-- Item-level form of `reachKey_sanitizeSchema`. -/
theorem reachKey_sanitizeItems (k : String) (hk : k ∈ STRIP_KEYS) :
    ∀ items, reachKeyItems k (sanitizeItems items) = false
  | [] => by simp [sanitizeItems, reachKeyItems]
  | item :: rest => by
    have htail := reachKey_sanitizeItems k hk rest
    cases item with
    | obj fields =>
      simpa [sanitizeItems, reachKeyItems, htail] using
        reachKey_sanitizeSchema k hk fields
    | null => simp [sanitizeItems, reachKeyItems, htail]
    | bool b => simp [sanitizeItems, reachKeyItems, htail]
    | num n => simp [sanitizeItems, reachKeyItems, htail]
    | str s => simp [sanitizeItems, reachKeyItems, htail]
    | arr xs => simp [sanitizeItems, reachKeyItems, htail]

end

/-- Sanitization keeps exactly the non-denylisted entries, in order, with
their values sanitized. -/
theorem sanitizeSchema_filter_map (fields : List (String × JValue)) :
    sanitizeSchema fields
      = (fields.filter (fun p => !(STRIP_KEYS.contains p.1))).map
          (fun p => (p.1, sanitizeEntryValue p.2)) := by
  induction fields with
  | nil => simp [sanitizeSchema]
  | cons p rest ih =>
    obtain ⟨k, v⟩ := p
    by_cases h : k ∈ STRIP_KEYS
    · simp [sanitizeSchema, h, List.filter_cons, ih]
    · simp [sanitizeSchema, h, List.filter_cons, ih]

mutual

/-- A denylist-free entry list is left untouched by the sanitizer. -/
theorem clean_sanitizeSchema :
    ∀ fields, (∀ k, k ∈ STRIP_KEYS → hasKeyFields k fields = false) →
      sanitizeSchema fields = fields
  | [], _ => by simp [sanitizeSchema]
  | (k', v) :: rest, h => by
    have parts : ∀ k, k ∈ STRIP_KEYS →
        (k' == k) = false ∧ hasKeyVal k v = false ∧ hasKeyFields k rest = false := by
      intro k hk
      have hall := h k hk
      simp only [hasKeyFields] at hall
      obtain ⟨h12, h3⟩ := Bool.or_eq_false_iff.mp hall
      obtain ⟨h1, h2⟩ := Bool.or_eq_false_iff.mp h12
      exact ⟨h1, h2, h3⟩
    have hk' : k' ∉ STRIP_KEYS := by
      intro hmem
      have := (parts k' hmem).1
      simp at this
    have hv : ∀ k, k ∈ STRIP_KEYS → hasKeyVal k v = false :=
      fun k hk => (parts k hk).2.1
    have hrest : ∀ k, k ∈ STRIP_KEYS → hasKeyFields k rest = false :=
      fun k hk => (parts k hk).2.2
    simp [sanitizeSchema, hk', clean_sanitizeEntryValue v hv,
      clean_sanitizeSchema rest hrest]

/-- A denylist-free value is left untouched by the sanitizer. -/
theorem clean_sanitizeEntryValue :
    ∀ v, (∀ k, k ∈ STRIP_KEYS → hasKeyVal k v = false) →
      sanitizeEntryValue v = v
  | .obj fields, h => by
    have h' : ∀ k, k ∈ STRIP_KEYS → hasKeyFields k fields = false := by
      intro k hk
      simpa [hasKeyVal] using h k hk
    simp [sanitizeEntryValue, clean_sanitizeSchema fields h']
  | .arr items, h => by
    have h' : ∀ k, k ∈ STRIP_KEYS → hasKeyItems k items = false := by
      intro k hk
      simpa [hasKeyVal] using h k hk
    simp [sanitizeEntryValue, clean_sanitizeItems items h']
  | .null, _ => rfl
  | .bool b, _ => rfl
  | .num n, _ => rfl
  | .str s, _ => rfl

/-- A denylist-free item list is left untouched by the sanitizer. -/
theorem clean_sanitizeItems :
    ∀ items, (∀ k, k ∈ STRIP_KEYS → hasKeyItems k items = false) →
      sanitizeItems items = items
  | [], _ => by simp [sanitizeItems]
  | item :: rest, h => by
    have hhd : ∀ k, k ∈ STRIP_KEYS → hasKeyVal k item = false := by
      intro k hk
      have hall := h k hk
      simp only [hasKeyItems] at hall
      exact (Bool.or_eq_false_iff.mp hall).1
    have htl : ∀ k, k ∈ STRIP_KEYS → hasKeyItems k rest = false := by
      intro k hk
      have hall := h k hk
      simp only [hasKeyItems] at hall
      exact (Bool.or_eq_false_iff.mp hall).2
    have htailEq := clean_sanitizeItems rest htl
    cases item with
    | obj fields =>
      have h' : ∀ k, k ∈ STRIP_KEYS → hasKeyFields k fields = false := by
        intro k hk
        simpa [hasKeyVal] using hhd k hk
      simp [sanitizeItems, htailEq, clean_sanitizeSchema fields h']
    | null => simp [sanitizeItems, htailEq]
    | bool b => simp [sanitizeItems, htailEq]
    | num n => simp [sanitizeItems, htailEq]
    | str s => simp [sanitizeItems, htailEq]
    | arr xs => simp [sanitizeItems, htailEq]

end

/-- Wrapping never touches the description, the extra fields, or the
schema descriptor of a tool. -/
theorem wrapExecute_fields (tool : Tool) :
    (wrapExecute tool).description = tool.description ∧
    (wrapExecute tool).extra = tool.extra ∧
    (wrapExecute tool).inputSchema = tool.inputSchema := by
  cases h : tool.execute <;> simp [wrapExecute, h]

/-- On a tool with an execution function, wrapping removes the rendering
hook and substitutes the flattening execution function. -/
theorem wrapExecute_some (tool : Tool) (f : JValue → Except JValue JValue)
    (h : tool.execute = some f) :
    (wrapExecute tool).toModelOutput = none ∧
    (wrapExecute tool).execute = some (fun args =>
      match f args with
      | .ok result => Except.ok (.str (flattenContent result))
      | .error e => Except.error e) := by
  simp [wrapExecute, h]

/-- On a tool whose canonical schema is an object, adaptation wraps the
tool rebuilt with the sanitized schema. -/
theorem adaptTool_schema_obj (tool : Tool) (fields : List (String × JValue))
    (h : tool.inputSchema.resolvedJson = some (.obj fields)) :
    adaptTool tool = wrapExecute { tool with
      inputSchema := jsonSchema (.obj (sanitizeSchema fields)) } := by
  simp [adaptTool, h, isObjectLike, entriesOf]

/-- On a tool whose canonical schema is absent or primitive, adaptation
is just execution wrapping. -/
theorem adaptTool_schema_skipped (tool : Tool)
    (h : schemaSkipped tool.inputSchema.resolvedJson = true) :
    adaptTool tool = wrapExecute tool := by
  cases hr : tool.inputSchema.resolvedJson with
  | none => simp [adaptTool, hr]
  | some raw =>
    have ho : isObjectLike raw = false := by
      have := h
      rw [hr] at this
      simpa [schemaSkipped] using this
    simp [adaptTool, hr, ho]

/-- The adapted tool's execution function, when the original has one:
rendering hook gone, results flattened, rejections untouched. -/
theorem adaptTool_execute (tool : Tool) (f : JValue → Except JValue JValue)
    (h : tool.execute = some f) :
    (adaptTool tool).toModelOutput = none ∧
    (adaptTool tool).execute = some (fun args =>
      match f args with
      | .ok result => Except.ok (.str (flattenContent result))
      | .error e => Except.error e) := by
  cases hr : tool.inputSchema.resolvedJson with
  | none => simp [adaptTool, hr, wrapExecute, h]
  | some raw =>
    by_cases ho : isObjectLike raw = true
    · simp [adaptTool, hr, ho, wrapExecute, h]
    · simp [adaptTool, hr, ho, wrapExecute, h]

/-- Adaptation never touches a tool's description or extra fields. -/
theorem adaptTool_frame (tool : Tool) :
    (adaptTool tool).description = tool.description ∧
    (adaptTool tool).extra = tool.extra := by
  cases hr : tool.inputSchema.resolvedJson with
  | none =>
    have h := wrapExecute_fields tool
    simp [adaptTool, hr, h.1, h.2.1]
  | some raw =>
    by_cases ho : isObjectLike raw = true
    · have h := wrapExecute_fields { tool with
        inputSchema := jsonSchema (.obj (sanitizeSchema (entriesOf raw))) }
      simp [adaptTool, hr, ho, h.1, h.2.1]
    · have h := wrapExecute_fields tool
      simp [adaptTool, hr, ho, h.1, h.2.1]

/-- The adapted tool's schema: either kept, or rebuilt from the
sanitized entries of an object-like canonical form. -/
theorem adaptTool_inputSchema (tool : Tool) :
    (adaptTool tool).inputSchema = tool.inputSchema ∨
    ∃ raw, tool.inputSchema.resolvedJson = some raw ∧ isObjectLike raw = true ∧
      (adaptTool tool).inputSchema = jsonSchema (.obj (sanitizeSchema (entriesOf raw))) := by
  cases hr : tool.inputSchema.resolvedJson with
  | none =>
    left
    have h := wrapExecute_fields tool
    simp [adaptTool, hr, h.2.2]
  | some raw =>
    by_cases ho : isObjectLike raw = true
    · right
      refine ⟨raw, rfl, ho, ?_⟩
      have h := wrapExecute_fields { tool with
        inputSchema := jsonSchema (.obj (sanitizeSchema (entriesOf raw))) }
      simp [adaptTool, hr, ho, h.2.2]
    · left
      have h := wrapExecute_fields tool
      simp [adaptTool, hr, ho, h.2.2]

/-- A tool with no execution function and a skipped schema is returned
as it is. -/
theorem adaptTool_id (tool : Tool) (hex : tool.execute = none)
    (hskip : schemaSkipped tool.inputSchema.resolvedJson = true) :
    adaptTool tool = tool := by
  rw [adaptTool_schema_skipped tool hskip]
  simp [wrapExecute, hex]

/-- `isContentBlock` recognizes a part exactly when the extraction loop
does. -/
theorem isContentBlock_eq_isSome (part : JValue) :
    isContentBlock part = (blockText part).isSome := by
  cases part with
  | obj fields =>
    simp only [isContentBlock, blockText]
    cases h1 : getField fields "type" with
    | none => simp
    | some tv =>
      cases h2 : getField fields "text" with
      | none => cases tv <;> simp
      | some xv =>
        cases tv with
        | str t =>
          cases xv with
          | str s =>
            by_cases ht : (t == "text") = true <;> simp [ht]
          | null => simp
          | bool b => simp
          | num n => simp
          | arr xs => simp
          | obj o => simp
        | null => simp
        | bool b => simp
        | num n => simp
        | arr xs => simp
        | obj o => simp
  | null => rfl
  | bool b => rfl
  | num n => rfl
  | str s => rfl
  | arr xs => rfl

/-- The text the loop pushes for a recognized part is that part's
`text` field. -/
theorem contentText_of_blockText (part : JValue) (s : String)
    (h : blockText part = some s) : contentText part = s := by
  cases part with
  | obj fields =>
    simp only [blockText] at h
    split at h
    · next t s' h1 h2 =>
      split at h
      · simp only [contentText, h2]
        exact (Option.some.inj h).symm ▸ rfl
      · exact Option.noConfusion h
    · exact Option.noConfusion h
  | null => exact Option.noConfusion h
  | bool b => exact Option.noConfusion h
  | num n => exact Option.noConfusion h
  | str s' => exact Option.noConfusion h
  | arr xs => exact Option.noConfusion h

/-- The extraction loop keeps exactly the Content Blocks, in order, and
collects their `text` fields. -/
theorem extractTexts_filter_map :
    ∀ parts, extractTexts parts = (parts.filter isContentBlock).map contentText
  | [] => by simp [extractTexts]
  | part :: rest => by
    have ih := extractTexts_filter_map rest
    cases hb : blockText part with
    | some s =>
      have hcb : isContentBlock part = true := by
        rw [isContentBlock_eq_isSome, hb]
        rfl
      have hct : contentText part = s := contentText_of_blockText part s hb
      simp [extractTexts, hb, List.filter_cons, hcb, hct, ih]
    | none =>
      have hcb : isContentBlock part = false := by
        rw [isContentBlock_eq_isSome, hb]
        rfl
      simp [extractTexts, hb, List.filter_cons, hcb, ih]

/-- The structural encoding of an object is never the empty string. -/
theorem jsonStringify_obj_ne_empty (fields : List (String × JValue)) :
    jsonStringify (.obj fields) ≠ "" := by
  intro h
  have hlen := congrArg String.length h
  simp only [jsonStringify] at hlen
  rw [String.length_append, String.length_append] at hlen
  have h1 : ("\x7b" : String).length = 1 := rfl
  have h2 : ("\x7d" : String).length = 1 := rfl
  have h0 : ("" : String).length = 0 := rfl
  rw [h1, h2, h0] at hlen
  omega

/-! ### Claims -/

/-- Claim C1, as stated, is false: in the tree
`{a: [[{minLength: 1}]]}` the denylisted key `minLength` sits inside an
array element that is itself an array, a position `sanitizeSchema` never
recurses into, so the key occurs in the output. -/
theorem C1_counterexample :
    ("minLength" ∈ STRIP_KEYS) ∧
    hasKeyFields "minLength" nestedArraySchema = true ∧
    sanitizeSchema nestedArraySchema = nestedArraySchema ∧
    hasKeyFields "minLength" (sanitizeSchema nestedArraySchema) = true :=
  ⟨by decide, rfl, rfl, rfl⟩

/-- Claim C1 (amended): for every tree and every denylisted key, the
output of `sanitizeSchema` contains no occurrence of that key at any
position its recursion reaches (the tree itself, nested trees, and
tree-shaped elements of sequences; keys inside sequence elements that are
not trees, such as sequences nested directly in sequences, are preserved
unchanged); and every key not in the denylist is preserved in order with
its value, recursively sanitized where the value is a tree or a
sequence. -/
theorem C1_sanitize_denylist (fields : List (String × JValue)) :
    (∀ k, k ∈ STRIP_KEYS → reachKeyFields k (sanitizeSchema fields) = false) ∧
    sanitizeSchema fields
      = (fields.filter (fun p => !(STRIP_KEYS.contains p.1))).map
          (fun p => (p.1, sanitizeEntryValue p.2)) :=
  ⟨fun k hk => reachKey_sanitizeSchema k hk fields, sanitizeSchema_filter_map fields⟩

/-- Witness for C1 at a concrete schema and the denylisted key
`pattern`. -/
theorem C1_sanitize_denylist_witness :
    reachKeyFields "pattern"
      (sanitizeSchema [("type", .str "string"), ("pattern", .str "x")]) = false :=
  (C1_sanitize_denylist [("type", .str "string"), ("pattern", .str "x")]).1
    "pattern" (by decide)

/-- Claim C2: on a tree whose `content` field holds a sequence,
`flattenContent` joins with newlines the `text` fields of exactly the
Content Block elements, in order, whenever at least one was collected;
the same holds for a bare sequence; and the spec's concrete example
flattens to `"a\nb"`. -/
theorem C2_flatten_wrapped_content :
    (∀ fields parts, getField fields "content" = some (.arr parts) →
        extractTexts parts ≠ [] →
        flattenContent (.obj fields) = String.intercalate "\n" (extractTexts parts)) ∧
    (∀ parts, extractTexts parts ≠ [] →
        flattenContent (.arr parts) = String.intercalate "\n" (extractTexts parts)) ∧
    (∀ parts, extractTexts parts = (parts.filter isContentBlock).map contentText) ∧
    flattenContent (.obj [("content", .arr
      [.obj [("type", .str "text"), ("text", .str "a")],
       .obj [("type", .str "text"), ("text", .str "b")]])]) = "a\nb" := by
  refine ⟨?_, ?_, extractTexts_filter_map, by rfl⟩
  · intro fields parts hc hne
    have hlen : 0 < (extractTexts parts).length := List.length_pos.mpr hne
    simp [flattenContent, hc, hlen]
  · intro parts hne
    have hlen : 0 < (extractTexts parts).length := List.length_pos.mpr hne
    simp [flattenContent, hlen]

/-- Witness for C2 at a concrete wrapped content result. -/
theorem C2_flatten_wrapped_content_witness :
    flattenContent (.obj [("content",
      .arr [.obj [("type", .str "text"), ("text", .str "w")]])])
      = String.intercalate "\n" (extractTexts
          [.obj [("type", .str "text"), ("text", .str "w")]]) :=
  C2_flatten_wrapped_content.1
    [("content", .arr [.obj [("type", .str "text"), ("text", .str "w")]])]
    [.obj [("type", .str "text"), ("text", .str "w")]] rfl (by decide)

/-- Claim C3: every tool of the collection with an execution function is
mapped by `sanitizeTools`, under the same name, to a tool whose execution
function invokes the original on the same arguments and resolves to
`flattenContent` of the original's result, as a string. -/
theorem C3_execute_wrapped (tools : List (String × Tool)) (name : String)
    (tool : Tool) (f : JValue → Except JValue JValue)
    (hmem : (name, tool) ∈ tools) (hex : tool.execute = some f) :
    (name, adaptTool tool) ∈ sanitizeTools tools ∧
    ∃ g, (adaptTool tool).execute = some g ∧
      ∀ args r, f args = Except.ok r →
        g args = Except.ok (.str (flattenContent r)) := by
  refine ⟨List.mem_map_of_mem _ hmem, ?_⟩
  refine ⟨_, (adaptTool_execute tool f hex).2, ?_⟩
  intro args r hr
  simp [hr]

/-- Witness for C3: the adapted sample tool turns
`[{type: "text", text: "result"}]` into the string `"result"`. -/
theorem C3_execute_wrapped_witness :
    ∃ g, (adaptTool mcpTextTool).execute = some g ∧
      g .null = Except.ok (.str "result") := by
  obtain ⟨-, g, hg, hap⟩ :=
    C3_execute_wrapped [("t", mcpTextTool)] "t" mcpTextTool _
      (List.mem_singleton.mpr rfl) rfl
  exact ⟨g, hg, (hap .null _ rfl).trans (by rfl)⟩

/-- Claim C4: a tool whose canonical schema resolves to a tree is mapped
by `sanitizeTools` to a tool whose schema descriptor is rebuilt from the
sanitized tree; concretely, sanitizing `{type: "string", minLength: 3}`
drops `minLength` and keeps `type: "string"`. -/
theorem C4_schema_rewired (tools : List (String × Tool)) (name : String)
    (tool : Tool) (fields : List (String × JValue))
    (hmem : (name, tool) ∈ tools)
    (hschema : tool.inputSchema.resolvedJson = some (.obj fields)) :
    (name, adaptTool tool) ∈ sanitizeTools tools ∧
    (adaptTool tool).inputSchema = jsonSchema (.obj (sanitizeSchema fields)) ∧
    hasKeyFields "minLength"
      (sanitizeSchema [("type", .str "string"), ("minLength", .num 3)]) = false ∧
    getField (sanitizeSchema [("type", .str "string"), ("minLength", .num 3)]) "type"
      = some (.str "string") := by
  refine ⟨List.mem_map_of_mem _ hmem, ?_, rfl, rfl⟩
  rw [adaptTool_schema_obj tool fields hschema]
  exact (wrapExecute_fields _).2.2

/-- Witness for C4 at the concrete `minLength` tool. -/
theorem C4_schema_rewired_witness :
    (adaptTool minLengthSchemaTool).inputSchema
      = jsonSchema (.obj [("type", .str "string")]) := by
  obtain ⟨-, h, -, -⟩ :=
    C4_schema_rewired [("t", minLengthSchemaTool)] "t" minLengthSchemaTool
      [("type", .str "string"), ("minLength", .num 3)]
      (List.mem_singleton.mpr rfl) rfl
  exact h.trans (by rfl)

/-- Claim C5: `flattenContent` is total by construction and returns, on
every value outside the recognized shapes (strings, wrapped or bare
sequences with at least one text block), the structural JSON encoding of
the entire input; that encoding is never empty for a non-empty object,
and matches the spec's `{foo: 1}` and non-text-block examples. -/
theorem C5_flatten_total :
    (∀ s, flattenContent (.str s) = s) ∧
    (∀ fields, (∀ parts, getField fields "content" = some (.arr parts) →
        extractTexts parts = []) →
        flattenContent (.obj fields) = jsonStringify (.obj fields)) ∧
    (∀ parts, extractTexts parts = [] →
        flattenContent (.arr parts) = jsonStringify (.arr parts)) ∧
    (flattenContent .null = jsonStringify .null) ∧
    (∀ b, flattenContent (.bool b) = jsonStringify (.bool b)) ∧
    (∀ n, flattenContent (.num n) = jsonStringify (.num n)) ∧
    (∀ fields, fields ≠ [] → jsonStringify (.obj fields) ≠ "") ∧
    flattenContent (.obj [("foo", .num 1)]) = jsonStringify (.obj [("foo", .num 1)]) ∧
    flattenContent (.arr [.obj [("type", .str "image"), ("url", .str "x")]])
      = jsonStringify (.arr [.obj [("type", .str "image"), ("url", .str "x")]]) := by
  refine ⟨fun s => rfl, ?_, ?_, rfl, fun b => rfl, fun n => rfl,
    fun fields _ => jsonStringify_obj_ne_empty fields, by rfl, by rfl⟩
  · intro fields hcontent
    cases hc : getField fields "content" with
    | none => simp [flattenContent, hc]
    | some cv =>
      cases cv with
      | arr parts =>
        have hempty := hcontent parts hc
        simp [flattenContent, hc, hempty]
      | null => simp [flattenContent, hc]
      | bool b => simp [flattenContent, hc]
      | num n => simp [flattenContent, hc]
      | str s => simp [flattenContent, hc]
      | obj o => simp [flattenContent, hc]
  · intro parts hempty
    simp [flattenContent, hempty]

/-- Witness for C5: the fallback fires on `{foo: 1}` and gives a
non-empty structural encoding. -/
theorem C5_flatten_total_witness :
    flattenContent (.obj [("foo", .num 1)]) = jsonStringify (.obj [("foo", .num 1)]) ∧
    jsonStringify (.obj [("foo", .num 1)]) ≠ "" :=
  ⟨C5_flatten_total.2.1 [("foo", .num 1)] (fun parts hp => nomatch hp),
   C5_flatten_total.2.2.2.2.2.2.1 [("foo", .num 1)] (by simp)⟩

/-- Claim C6, as stated, is false: a tool with a rendering hook but no
execution function is returned by `wrapExecute` unchanged, hook
included, so the output of `sanitizeTools` still exposes it. -/
theorem C6_counterexample :
    hookOnlyTool.execute = none ∧
    hookOnlyTool.toModelOutput.isSome = true ∧
    (sanitizeTools [("t", hookOnlyTool)]).map
      (fun e => e.2.toModelOutput.isSome) = [true] :=
  ⟨rfl, rfl, rfl⟩

/-- Claim C6 (amended): for every input tool with an execution function,
the corresponding tool produced by `sanitizeTools` has no rendering
hook. -/
theorem C6_hook_removed (tools : List (String × Tool)) (name : String)
    (tool : Tool) (f : JValue → Except JValue JValue)
    (hmem : (name, tool) ∈ tools) (hex : tool.execute = some f) :
    (name, adaptTool tool) ∈ sanitizeTools tools ∧
    (adaptTool tool).toModelOutput = none :=
  ⟨List.mem_map_of_mem _ hmem, (adaptTool_execute tool f hex).1⟩

/-- Witness for C6 at a tool that had a hook and an execution
function. -/
theorem C6_hook_removed_witness :
    hookedExecTool.toModelOutput.isSome = true ∧
    (adaptTool hookedExecTool).toModelOutput = none :=
  ⟨rfl, (C6_hook_removed [("t", hookedExecTool)] "t" hookedExecTool _
    (List.mem_singleton.mpr rfl) rfl).2⟩

/-- Claim C7, as stated, is false: an array-shaped canonical schema is
not a tree, yet it passes the code's `typeof raw === "object"` guard, so
the schema descriptor is replaced (by the sanitized index-keyed entries
of the array), not kept. -/
theorem C7_counterexample :
    arraySchemaTool.inputSchema.resolvedJson = some (.arr [.str "x"]) ∧
    (sanitizeTools [("t", arraySchemaTool)]).map
      (fun e => e.2.inputSchema.resolvedJson) = [some (.obj [("0", .str "x")])] ∧
    some (JValue.obj [("0", .str "x")]) ≠ some (JValue.arr [.str "x"]) :=
  ⟨rfl, rfl, by simp⟩

/-- Claim C7 (amended): for every tool whose canonical schema is absent
or primitive (null, boolean, number or string — but not an array, which
the guard treats as object-like), the output tool keeps its original
schema descriptor, while its execution function, if present, is still
wrapped. -/
theorem C7_schema_skipped (tools : List (String × Tool)) (name : String)
    (tool : Tool) (hmem : (name, tool) ∈ tools)
    (hskip : schemaSkipped tool.inputSchema.resolvedJson = true) :
    (name, adaptTool tool) ∈ sanitizeTools tools ∧
    (adaptTool tool).inputSchema = tool.inputSchema ∧
    ∀ f, tool.execute = some f →
      (adaptTool tool).execute = some (fun args =>
        match f args with
        | .ok result => Except.ok (.str (flattenContent result))
        | .error e => Except.error e) := by
  refine ⟨List.mem_map_of_mem _ hmem, ?_, ?_⟩
  · rw [adaptTool_schema_skipped tool hskip]
    exact (wrapExecute_fields tool).2.2
  · intro f hf
    exact (adaptTool_execute tool f hf).2

/-- Witness for C7 at a tool with a primitive canonical schema. -/
theorem C7_schema_skipped_witness :
    (adaptTool primitiveSchemaTool).inputSchema = primitiveSchemaTool.inputSchema :=
  (C7_schema_skipped [("t", primitiveSchemaTool)] "t" primitiveSchemaTool
    (List.mem_singleton.mpr rfl) rfl).2.1

/-- Claim C8: sanitization is the identity on trees with no denylisted
key at any depth. -/
theorem C8_sanitize_identity (fields : List (String × JValue))
    (h : ∀ k ∈ STRIP_KEYS, hasKeyFields k fields = false) :
    sanitizeSchema fields = fields :=
  clean_sanitizeSchema fields h

/-- Witness for C8 at a concrete denylist-free tree. -/
theorem C8_sanitize_identity_witness :
    sanitizeSchema cleanSchema = cleanSchema :=
  C8_sanitize_identity cleanSchema (by decide)

/-- Claim C9: the wrapped execution function rejects with exactly the
original's error whenever the original rejects, and never fails when the
original succeeds (it resolves to the flattened string). -/
theorem C9_error_propagation (tool : Tool) (f : JValue → Except JValue JValue)
    (hex : tool.execute = some f) :
    ∃ g, (wrapExecute tool).execute = some g ∧
      (∀ args e, f args = Except.error e → g args = Except.error e) ∧
      (∀ args r, f args = Except.ok r →
        g args = Except.ok (.str (flattenContent r))) := by
  refine ⟨_, (wrapExecute_some tool f hex).2, ?_, ?_⟩
  · intro args e he
    simp [he]
  · intro args r hr
    simp [hr]

/-- Witness for C9 at a tool that always rejects. -/
theorem C9_error_propagation_witness :
    ∃ g, (wrapExecute failingTool).execute = some g ∧
      g .null = Except.error (.str "boom") := by
  obtain ⟨g, hg, herr, -⟩ := C9_error_propagation failingTool _ rfl
  exact ⟨g, hg, herr .null _ rfl⟩

/-- Claim C10, as stated, is false in its pass-through part: a tool with
no execution function and an array-shaped (hence non-tree) canonical
schema still has its schema descriptor replaced. -/
theorem C10_counterexample :
    numArraySchemaTool.execute = none ∧
    numArraySchemaTool.inputSchema.resolvedJson = some (.arr [.num 7]) ∧
    (sanitizeTools [("t", numArraySchemaTool)]).map
      (fun e => e.2.inputSchema.resolvedJson) = [some (.obj [("0", .num 7)])] ∧
    some (JValue.obj [("0", .num 7)]) ≠ some (JValue.arr [.num 7]) :=
  ⟨rfl, rfl, rfl, by simp⟩

/-- Claim C10 (amended): `sanitizeTools` maps the same names in order,
one output tool per input tool; every output tool agrees with its input
tool on all fields other than `inputSchema`, `execute` and
`toModelOutput`; the schema is either kept or rebuilt from the sanitized
entries of an object-like canonical form; a tool with an execution
function loses its hook and keeps an execution function; and a tool with
no execution function whose canonical schema is absent or primitive (not
object-like — arrays are object-like for the guard) passes through
unchanged in every field. -/
theorem C10_frame (tools : List (String × Tool)) (name : String) (tool : Tool)
    (hmem : (name, tool) ∈ tools) :
    (sanitizeTools tools).map Prod.fst = tools.map Prod.fst ∧
    (name, adaptTool tool) ∈ sanitizeTools tools ∧
    (adaptTool tool).description = tool.description ∧
    (adaptTool tool).extra = tool.extra ∧
    ((adaptTool tool).inputSchema = tool.inputSchema ∨
      ∃ raw, tool.inputSchema.resolvedJson = some raw ∧ isObjectLike raw = true ∧
        (adaptTool tool).inputSchema = jsonSchema (.obj (sanitizeSchema (entriesOf raw)))) ∧
    (∀ f, tool.execute = some f →
      (adaptTool tool).toModelOutput = none ∧ (adaptTool tool).execute.isSome = true) ∧
    (tool.execute = none → schemaSkipped tool.inputSchema.resolvedJson = true →
      adaptTool tool = tool) := by
  refine ⟨?_, List.mem_map_of_mem _ hmem, (adaptTool_frame tool).1,
    (adaptTool_frame tool).2, adaptTool_inputSchema tool, ?_,
    fun hex hskip => adaptTool_id tool hex hskip⟩
  · simp [sanitizeTools]
  · intro f hf
    have h := adaptTool_execute tool f hf
    exact ⟨h.1, by simp [h.2]⟩

/-- Witness for C10 at a concrete one-tool collection. -/
theorem C10_frame_witness :
    (sanitizeTools [("t", hookedExecTool)]).map Prod.fst
      = [("t", hookedExecTool)].map Prod.fst ∧
    (adaptTool hookedExecTool).description = hookedExecTool.description :=
  ⟨(C10_frame [("t", hookedExecTool)] "t" hookedExecTool
      (List.mem_singleton.mpr rfl)).1,
   (C10_frame [("t", hookedExecTool)] "t" hookedExecTool
      (List.mem_singleton.mpr rfl)).2.2.1⟩

end SanitizeTools
